import Mathlib

/-!
A shallow embedding of the worker-lifecycle orchestration core of the `wt`
tool (crates/wt-core and crates/wt-cli), together with theorems settling the
specification claims about it.

Conventions of the embedding:
* machine effects are made explicit: `Utc::now()` becomes a `now : Nat`
  argument, `Uuid::new_v4()` a `freshId : Nat` argument supplied by the
  caller, and the results of subprocess probes (git, tmux) are fields of an
  explicit environment record;
* Rust's `HashMap<WorkerId, Worker>` is refined to an association list
  `List (Nat × Worker)`; the unspecified iteration order of the hash map is
  refined to list order;
* fallible operations return `Except Error _`; operations that also mutate
  the world return the (possibly unchanged) world alongside the outcome.
-/

namespace WT

/-- Error kinds, from crates/wt-core/src/error.rs (the variants the claims
touch; payloads that carry only display text are kept as `String`). -/
inductive Error where
  | notInGitRepo
  | worktreeExists (name : String)
  | worktreeNotFound (name : String)
  | workerNotFound (name : String)
  | branchNotFound (name : String)
  | uncommittedChanges
  | missingDependency (name : String)
  | tmuxSessionNotFound (name : String)
  | git (stderr : String)
  | io
  | custom (msg : String)
deriving DecidableEq, Repr

/-- Per-file diff information, from crates/wt-core/src/worker.rs (`FileDiff`).
Rust `usize` is modelled as `Nat`. -/
structure FileDiff where
  path : String
  insertions : Nat
  deletions : Nat
deriving DecidableEq, Repr

/-- Aggregate diff statistics, from crates/wt-core/src/worker.rs
(`DiffStats`, with `Default` = all zero / empty). -/
structure DiffStats where
  files_changed : Nat := 0
  insertions : Nat := 0
  deletions : Nat := 0
  files : List FileDiff := []
deriving DecidableEq, Repr

/-- Worker status state machine, from crates/wt-core/src/worker.rs
(`WorkerStatus`). -/
inductive WorkerStatus where
  | spawned
  | running
  | waitingReview (diff_stats : DiffStats)
  | approved
  | merged
  | failed (reason : String)
  | archived
deriving DecidableEq, Repr

/-- A worker record, from crates/wt-core/src/worker.rs (`Worker`).
`WorkerId` (a UUID) is modelled as `Nat`; timestamps as `Nat`; paths as
`String`. -/
structure Worker where
  id : Nat
  name : String
  worktree_path : String
  branch : String
  base_branch : String
  task : Option String
  status : WorkerStatus
  tmux_session : String
  tmux_window : Option String
  created_at : Nat
  updated_at : Nat
deriving DecidableEq, Repr

namespace Worker

/-- `Worker::new` (worker.rs:60): fresh id and clock are explicit
arguments; the initial status is `Spawned`, the window defaults to the
worker's name, and both timestamps are the creation instant. -/
def new (freshId now : Nat) (name : String) (worktree_path branch base_branch
    tmux_session : String) : Worker :=
  { id := freshId
    name := name
    worktree_path := worktree_path
    branch := branch
    base_branch := base_branch
    task := none
    status := WorkerStatus.spawned
    tmux_session := tmux_session
    tmux_window := some name
    created_at := now
    updated_at := now }

/-- `Worker::set_status` (worker.rs:84): unconditionally overwrites the
status and refreshes `updated_at` with the current instant. -/
def set_status (w : Worker) (now : Nat) (status : WorkerStatus) : Worker :=
  { w with status := status, updated_at := now }

/-- `Worker::set_task` (worker.rs:90): sets the task and refreshes
`updated_at`. -/
def set_task (w : Worker) (now : Nat) (task : String) : Worker :=
  { w with task := some task, updated_at := now }

/-- `Worker::is_terminal` (worker.rs:96). -/
def is_terminal (w : Worker) : Bool :=
  match w.status with
  | WorkerStatus.merged => true
  | WorkerStatus.failed _ => true
  | WorkerStatus.archived => true
  | _ => false

/-- `Worker::is_active` (worker.rs:104). -/
def is_active (w : Worker) : Bool :=
  !w.is_terminal

end Worker

/-- Repository configuration snapshot, from crates/wt-core/src/config.rs
(`RepoConfig`; only the fields the claims touch). -/
structure RepoConfig where
  base_branch : String := "main"
  worktree_dir : String := ".worktrees"
deriving DecidableEq, Repr

/-- Insert into an association list keyed by worker id, replacing an
existing binding for the same key (the behaviour of
`HashMap::insert`). -/
def insertAssoc (k : Nat) (v : Worker) :
    List (Nat × Worker) → List (Nat × Worker)
  | [] => [(k, v)]
  | (k', v') :: rest =>
      if k' = k then (k, v) :: rest else (k', v') :: insertAssoc k v rest

/-- Persistent orchestrator state, from crates/wt-core/src/state.rs
(`OrchestratorState`). The `HashMap<WorkerId, Worker>` is refined to an
association list. -/
structure OrchestratorState where
  version : Nat
  repo_root : String
  workers : List (Nat × Worker)
  tmux_session : String
  config : RepoConfig
deriving DecidableEq, Repr

namespace OrchestratorState

/-- `STATE_VERSION` (state.rs:13). -/
def STATE_VERSION : Nat := 1

/-- `OrchestratorState::new` (state.rs:32): the tmux session name is
derived once from the repository directory's basename, here an explicit
`repoBasename` argument standing for `repo_root.file_name()`. -/
def new (repo_root repoBasename : String) (config : RepoConfig) :
    OrchestratorState :=
  { version := STATE_VERSION
    repo_root := repo_root
    workers := []
    tmux_session := "wt-" ++ repoBasename
    config := config }

/-- `OrchestratorState::add_worker` (state.rs:95): insert keyed by the
worker's id.  No name-uniqueness check of any kind is performed. -/
def add_worker (s : OrchestratorState) (w : Worker) : OrchestratorState :=
  { s with workers := insertAssoc w.id w s.workers }

/-- `OrchestratorState::get_worker_by_name` (state.rs:110): linear scan
for the first worker with the given name (hash-map iteration order refined
to list order). -/
def get_worker_by_name (s : OrchestratorState) (name : String) :
    Option Worker :=
  (s.workers.find? (fun p => p.2.name = name)).map (·.2)

/-- The in-place mutation performed through
`OrchestratorState::get_worker_by_name_mut` (state.rs:115): apply `f` to the
first worker with the given name, leave everything else unchanged; if no
worker matches, the state is unchanged. -/
def update_worker_by_name (s : OrchestratorState) (name : String)
    (f : Worker → Worker) : OrchestratorState :=
  { s with workers := go s.workers }
where
  go : List (Nat × Worker) → List (Nat × Worker)
    | [] => []
    | (i, w) :: rest =>
        if w.name = name then (i, f w) :: rest else (i, w) :: go rest

/-- `OrchestratorState::active_workers` (state.rs:125). -/
def active_workers (s : OrchestratorState) : List Worker :=
  (s.workers.map (·.2)).filter (·.is_active)

end OrchestratorState

/-- The worker built by `spawn::register` (spawn.rs:55): a fresh worker
(optionally with a task context) with its window name defaulted.  The
ambient values read from git/config (worktree path, base branch, session
name) are explicit arguments; `freshId`/`now` stand for
`Uuid::new_v4()`/`Utc::now()`. -/
def registeredWorker (freshId now : Nat) (name branch : String)
    (context : Option String)
    (worktree_path base_branch session_name : String) : Worker :=
  let worker := Worker.new freshId now name worktree_path branch base_branch
    session_name
  let worker := match context with
    | some ctx => worker.set_task now ctx
    | none => worker
  { worker with tmux_window := some name }

/-- The state mutation performed by `spawn::register` (spawn.rs:55) on
the loaded-or-created `OrchestratorState`: `add_worker` the freshly built
worker and save. -/
def registerUpdate (s : OrchestratorState) (freshId now : Nat)
    (name branch : String) (context : Option String)
    (worktree_path base_branch session_name : String) : OrchestratorState :=
  s.add_worker (registeredWorker freshId now name branch context
    worktree_path base_branch session_name)

/-- The state mutation performed by `spawn::kill` (spawn.rs:219) when the
state file exists: the first worker with the given name gets
`worker.status = WorkerStatus::Archived` assigned directly — NOT via
`set_status`, so `updated_at` is left untouched and no clock is read. -/
def killStateUpdate (s : OrchestratorState) (name : String) :
    OrchestratorState :=
  s.update_worker_by_name name
    (fun w => { w with status := WorkerStatus.archived })

/-- The state mutation performed by `spawn::unregister` (spawn.rs:245)
when the state file exists: the first worker with the given name gets
`set_status(WorkerStatus::Archived)`, which also refreshes
`updated_at`. -/
def unregisterStateUpdate (s : OrchestratorState) (now : Nat)
    (name : String) : OrchestratorState :=
  s.update_worker_by_name name
    (fun w => w.set_status now WorkerStatus.archived)

/-- The orchestrator states reachable through the record-store mutations
the CLI performs: a fresh state (`OrchestratorState::new`), a spawn
registration with a fresh id, a kill archival, or an unregister
archival. -/
inductive Reachable : OrchestratorState → Prop where
  | init (repo_root repoBasename : String) (config : RepoConfig) :
      Reachable (OrchestratorState.new repo_root repoBasename config)
  | register (s : OrchestratorState) (freshId now : Nat)
      (name branch : String) (context : Option String)
      (worktree_path base_branch session_name : String) :
      Reachable s →
      (∀ p ∈ s.workers, p.1 ≠ freshId) →
      Reachable (registerUpdate s freshId now name branch context
        worktree_path base_branch session_name)
  | kill (s : OrchestratorState) (name : String) :
      Reachable s → Reachable (killStateUpdate s name)
  | unregister (s : OrchestratorState) (now : Nat) (name : String) :
      Reachable s → Reachable (unregisterStateUpdate s now name)

/-! ### Session multiplexer adapter (crates/wt-core/src/session.rs) -/

/-- Live tmux state as observed through the probes of session.rs: the set
of existing sessions, the window names of each session, and the trimmed
`#{pane_current_command}` output of `list-panes` for a given
session/window (`none` models the `Err(_)` branch where spawning tmux
itself failed). -/
structure TmuxEnv where
  sessions : List String
  windows : String → List String
  paneCmd : String → String → Option String

namespace TmuxEnv

/-- `session_exists` (session.rs:11): `tmux has-session` succeeds. -/
def session_exists (env : TmuxEnv) (session : String) : Bool :=
  env.sessions.contains session

/-- `window_exists` (session.rs:30): false if the session is absent,
otherwise whether any listed window name matches. -/
def window_exists (env : TmuxEnv) (session window : String) : Bool :=
  if !env.session_exists session then false
  else (env.windows session).contains window

/-- The shell names treated as "the command has exited"
(session.rs:162). -/
def knownShells : List String := ["bash", "zsh", "fish", "sh"]

/-- `pane_is_running` (session.rs:143): false if the window does not
exist or the probe fails; otherwise true iff the pane's current command is
not one of bash/zsh/fish/sh. -/
def pane_is_running (env : TmuxEnv) (session window : String) : Bool :=
  if !env.window_exists session window then false
  else
    match env.paneCmd session window with
    | some cmd => !(knownShells.contains cmd)
    | none => false

/-- `kill_window` (session.rs:83): a no-op when the window does not
exist; otherwise the window disappears from the session. -/
def kill_window (env : TmuxEnv) (session window : String) : TmuxEnv :=
  if !env.window_exists session window then env
  else
    { env with
      windows := fun s =>
        if s = session then (env.windows s).erase window else env.windows s }

end TmuxEnv

/-- Live task status reported by the reconciliation query, from
crates/wt-core/src/spawn.rs (`TaskStatus`). -/
inductive TaskStatus where
  | running
  | exited
  | noSession
  | noWindow
deriving DecidableEq, Repr

/-- `get_worker_status` (spawn.rs:186): the four-way case split over the
live tmux probes. -/
def get_worker_status (env : TmuxEnv) (session window : String) :
    TaskStatus :=
  if !env.session_exists session then TaskStatus.noSession
  else if !env.window_exists session window then TaskStatus.noWindow
  else if env.pane_is_running session window then TaskStatus.running
  else TaskStatus.exited

/-! ### Git ref resolution (crates/wt-core/src/git.rs) -/

/-- The outcomes of `git rev-parse` as observed by git.rs:
`revParseVerify r` is the trimmed stdout of `git rev-parse --verify r`
when it succeeds, and `revParseHead` that of `git rev-parse HEAD`. -/
structure RefEnv where
  revParseVerify : String → Option String
  revParseHead : Option String

/-- `find_valid_start_point` (git.rs:289): the ordered fallback chain for
the start point of a new branch.  Candidates, first success wins:
(1) `base_branch` as-is (returning the name), (2) `"origin/" + base`
when the prefix is absent (returning the name), (3) `refs/heads/base`
(returning the resolved sha), (4) `refs/remotes/origin/base` — spelled
`refs/remotes/ + base` when base already starts with `origin/` —
(returning the sha), (5) `HEAD`'s sha; `BranchNotFound` when all five
fail. -/
def find_valid_start_point (env : RefEnv) (base_branch : String) :
    Except Error String :=
  if (env.revParseVerify base_branch).isSome then
    Except.ok base_branch
  else if !base_branch.startsWith "origin/"
      && (env.revParseVerify ("origin/" ++ base_branch)).isSome then
    Except.ok ("origin/" ++ base_branch)
  else
    match env.revParseVerify ("refs/heads/" ++ base_branch) with
    | some sha => Except.ok sha
    | none =>
      let with_remotes :=
        if base_branch.startsWith "origin/" then
          "refs/remotes/" ++ base_branch
        else
          "refs/remotes/origin/" ++ base_branch
      match env.revParseVerify with_remotes with
      | some sha => Except.ok sha
      | none =>
        match env.revParseHead with
        | some sha => Except.ok sha
        | none => Except.error (Error.branchNotFound base_branch)

/-! ### Numstat parsing (crates/wt-core/src/git.rs, `get_diff_stats`) -/

/-- Rust's `str::split('\t')` on the character list of a line: the
tab-separated fields, where an empty input yields one empty field and a
trailing tab yields a trailing empty field. -/
def splitTabChars : List Char → List (List Char)
  | [] => [[]]
  | c :: rest =>
      let r := splitTabChars rest
      if c = '\t' then [] :: r
      else
        match r with
        | f :: fs => (c :: f) :: fs
        | [] => [[c]]

/-- `line.split('\t')` as strings. -/
def splitTabs (line : String) : List String :=
  (splitTabChars line.data).map (fun cs => String.mk cs)

/-- Digit-by-digit accumulation of a decimal numeral; any non-digit
character fails the parse. -/
def parseUsizeChars (cs : List Char) (acc : Nat) : Option Nat :=
  match cs with
  | [] => some acc
  | c :: rest =>
      if c.isDigit then
        parseUsizeChars rest (acc * 10 + (c.toNat - Char.toNat '0'))
      else none

/-- Rust's `str::parse::<usize>()` on the strings git's numstat emits:
a nonempty all-digit string parses to its value, anything else (such as
the `-` of a binary file) fails.  (Rust also accepts a leading `+` and
fails on overflow past `usize::MAX`; git numstat emits neither, and
`usize` is modelled as `Nat`.) -/
def parseUsize (s : String) : Option Nat :=
  match s.data with
  | [] => none
  | _ => parseUsizeChars s.data 0

/-- One iteration of the parsing loop of `get_diff_stats` (git.rs:445):
split the line on tabs; when there are at least three fields, parse the
first two as numbers (`parse::<usize>().unwrap_or(0)`, so a non-numeric
field such as `-` contributes 0), count the file, and record the per-file
entry; shorter lines are skipped. -/
def parseNumstatLine (stats : DiffStats) (line : String) : DiffStats :=
  match splitTabs line with
  | a :: b :: p :: _ =>
      let insertions := (parseUsize a).getD 0
      let deletions := (parseUsize b).getD 0
      { stats with
        files_changed := stats.files_changed + 1
        insertions := stats.insertions + insertions
        deletions := stats.deletions + deletions
        files := stats.files ++ [{ path := p, insertions := insertions,
                                   deletions := deletions }] }
  | _ => stats

/-- The parsing loop of `get_diff_stats` (git.rs:442-461) over the lines
of the `git diff --numstat` stdout, starting from
`DiffStats::default()`. -/
def get_diff_stats_lines (lines : List String) : DiffStats :=
  lines.foldl parseNumstatLine {}

/-! ### The worktrees directory tree (git.rs walking, worktree.rs removal)

The filesystem below the worktrees root (`.worktrees`) is modelled as a
tree of directories.  A node records whether the directory contains a
`.git` marker file (making it a worktree root) and its subdirectories.
Paths are lists of segments relative to the worktrees root (`[]` is the
root itself). -/

/-- A directory under the worktrees root: `.git`-file marker plus named
subdirectories. -/
inductive DirTree where
  | node (hasGitFile : Bool) (children : List (String × DirTree))
deriving Repr

namespace DirTree

/-- The `.git` marker of a directory. -/
def gitFile : DirTree → Bool
  | node g _ => g

/-- The subdirectories of a directory. -/
def children : DirTree → List (String × DirTree)
  | node _ cs => cs

/-- Look up the directory at a path (`None` when it does not exist). -/
def getAt : DirTree → List String → Option DirTree
  | t, [] => some t
  | node _ cs, n :: rest =>
      match cs.find? (fun c => c.1 == n) with
      | some c => getAt c.2 rest
      | none => none

/-- Delete the directory at a (nonempty) path, with everything under it;
a missing path leaves the tree unchanged. -/
def removeAt : DirTree → List String → DirTree
  | t, [] => t
  | node g cs, [n] => node g (cs.filter (fun c => c.1 != n))
  | node g cs, n :: rest =>
      node g (cs.map (fun c =>
        if c.1 == n then (c.1, removeAt c.2 rest) else c))

/-- `read_dir(p).next().is_none()` at a path: the directory exists, holds
no `.git` file and has no subdirectories. -/
def isEmptyAt (t : DirTree) (p : List String) : Bool :=
  match t.getAt p with
  | some (node g cs) => !g && cs.isEmpty
  | none => false

/-- Whether a path exists as a directory. -/
def existsAt (t : DirTree) (p : List String) : Bool :=
  (t.getAt p).isSome

/-- The body of `find_worktrees_recursive` (git.rs:134): walk the entries
of a directory; a subdirectory with a `.git` file is pushed as a worktree
(named by its path relative to the root) and not descended into, any
other subdirectory is descended into. -/
def wtChildren (base : List String) : List (String × DirTree) →
    List (List String)
  | [] => []
  | (n, node true _) :: rest => (base ++ [n]) :: wtChildren base rest
  | (n, node false cs) :: rest =>
      wtChildren (base ++ [n]) cs ++ wtChildren base rest

/-- `list_worktree_names` (git.rs:122) up to the final sort: the worktree
paths found by walking from the root. -/
def worktreePaths (t : DirTree) : List (List String) :=
  wtChildren [] t.children

/-- `list_worktree_names` (git.rs:122): the collected names (path
segments joined with `/`), lexicographically sorted
(`worktrees.sort()`). -/
def list_worktree_names (t : DirTree) : List String :=
  ((worktreePaths t).map (fun p => String.intercalate "/" p)).mergeSort
    (fun a b => a ≤ b)

/-- Pairwise-distinct sibling names at every level below a list of
entries — a filesystem guarantee (`read_dir` never yields two entries
with the same name). -/
def nodupChildren : List (String × DirTree) → Bool
  | [] => true
  | (n, node _ cs) :: rest =>
      rest.all (fun c => c.1 != n) && nodupChildren cs && nodupChildren rest

/-- `nodupChildren` at the root of a tree. -/
def nodupTree : DirTree → Bool
  | node _ cs => nodupChildren cs

end DirTree

/-- The git state a removal touches: the directory tree under the
worktrees root and the per-worktree dirtiness probe
(`git status --porcelain` returning any entries). -/
structure GitWorld where
  tree : DirTree
  dirty : List String → Bool

/-- `remove_worktree` (git.rs:349) wraps the external `git worktree
remove [--force] <path>` subprocess; its outcome is modelled from git's
documented behaviour, which the stderr matching at git.rs:361 relies on:
on a path that is not a registered worktree the tool fails (generic
`Error::Git`); on a worktree with modified or untracked files and no
`--force` its stderr contains "contains modified or untracked files",
mapped to `UncommittedChanges`; otherwise the worktree directory is
removed. -/
def git_remove_worktree (w : GitWorld) (path : List String) (force : Bool) :
    Except Error GitWorld :=
  match w.tree.getAt path with
  | none => Except.error (Error.git "is not a working tree")
  | some d =>
      if !d.gitFile then Except.error (Error.git "is not a working tree")
      else if w.dirty path && !force then Except.error Error.uncommittedChanges
      else Except.ok { w with tree := w.tree.removeAt path }

/-- The chain of proper ancestors of a path, nearest first, excluding the
worktrees root `[]` — exactly the directories visited by the
`parent()`-walking loops of worktree.rs:112 and remove.rs:50, whose stop
condition "reached `.worktrees`" is reaching the root. -/
def parentChain : List String → List (List String)
  | [] => []
  | n :: rest =>
      let q := (n :: rest).dropLast
      if q = [] then [] else q :: parentChain q
termination_by p => p.length
decreasing_by
  simp only [List.length_dropLast, List.length_cons]
  omega

/-- The loop body shared by `Worktree::cleanup_empty_parents`
(worktree.rs:112) and `remove_single` (remove.rs:50): visit each ancestor
in turn; a missing directory makes `read_dir` fail (I/O error); a
non-empty directory stops the ascent; an empty one is removed and the
ascent continues. -/
def cleanupChain (t : DirTree) : List (List String) → Except Error DirTree
  | [] => Except.ok t
  | q :: rest =>
      match t.getAt q with
      | none => Except.error Error.io
      | some d =>
          if !d.gitFile && d.children.isEmpty then
            cleanupChain (t.removeAt q) rest
          else Except.ok t

/-- `Worktree::cleanup_empty_parents` (worktree.rs:112): remove every
now-empty proper ancestor, ascending from the removed worktree's parent,
stopping at the first non-empty ancestor and never touching the worktrees
root. -/
def cleanup_empty_parents (t : DirTree) (path : List String) :
    Except Error DirTree :=
  cleanupChain t (parentChain path)

/-- `Worktree::remove` (worktree.rs:97): refuse with `UncommittedChanges`
when the worktree is dirty and `force` is not set; otherwise remove the
worktree (via the git subprocess) and clean up empty parents. -/
def Worktree.remove (w : GitWorld) (path : List String) (force : Bool) :
    Except Error GitWorld :=
  if !force && w.dirty path then Except.error Error.uncommittedChanges
  else
    match git_remove_worktree w path force with
    | Except.error e => Except.error e
    | Except.ok w1 =>
        match cleanup_empty_parents w1.tree path with
        | Except.error e => Except.error e
        | Except.ok t2 => Except.ok { w1 with tree := t2 }

/-! ### The world a CLI command acts on (spawn.rs operations, merge.rs)

The world bundles the persisted state file, the live tmux state, and the
outcomes of the git probes a command performs.  Every effect of an
operation is a field update; an operation that returns early with an
error leaves the world exactly as it found it. -/

/-- Per-worker info reported by the `ps` query, from
crates/wt-core/src/spawn.rs (`TaskInfo`). -/
structure TaskInfo where
  name : String
  status : TaskStatus
  branch : String
  commits_ahead : Nat
  is_dirty : Bool
deriving DecidableEq, Repr

/-- Outcomes of the git probes used by list_tasks and merge, keyed by the
worktree path string.  `Except String` failures carry the captured
stderr. -/
structure GitProbes where
  /-- `Path::exists()` on a worktree path. -/
  pathExists : String → Bool
  /-- `get_commits_ahead` (git.rs:386); a failing `git log` yields
  `Ok(vec![])` in the source, so the probe is total. -/
  commitsAhead : String → String → List String
  /-- `has_uncommitted_changes` (git.rs:371). -/
  hasUncommitted : String → Except String Bool
  /-- `get_worktree_branch` (git.rs:497). -/
  worktreeBranch : String → Except String String
  /-- `merge_branch` (git.rs:482): `some stderr` models a non-zero exit
  of `git merge <branch> --no-edit` (e.g. a conflict), `none` success. -/
  mergeStderr : String → Option String

/-- The state a CLI command reads and mutates: the parsed contents of the
persisted state file (`none` = file absent), live tmux state, git probe
outcomes, and the ambient repository values (basename of the repository
root, worktrees directory, configured base branch). -/
structure World where
  repoBasename : String
  worktreesDir : String
  base_branch : String
  stateFile : Option OrchestratorState
  tmux : TmuxEnv
  git : GitProbes

/-- `get_session_name` (spawn.rs:45): `"wt-" + repo basename`. -/
def get_session_name (w : World) : String :=
  "wt-" ++ w.repoBasename

/-- `worktrees_dir.join(name)`. -/
def joinPath (dir name : String) : String :=
  dir ++ "/" ++ name

/-- `list_windows` (session.rs:194): empty when the session is absent. -/
def TmuxEnv.list_windows (env : TmuxEnv) (session : String) : List String :=
  if !env.session_exists session then [] else env.windows session

/-- The `TaskInfo` built for one persisted worker by the loop of
`list_tasks` (spawn.rs:133-154): live status from the tmux probes; when
the worktree path exists, commit-ahead count and dirtiness from the git
probes (`unwrap_or` defaults on failure), else `(0, false)`. -/
def taskInfoOf (w : World) (p : Nat × Worker) : TaskInfo :=
  let worker := p.2
  let status := get_worker_status w.tmux (get_session_name w) worker.name
  let path := joinPath w.worktreesDir worker.name
  let commits_dirty :=
    if w.git.pathExists path then
      ((w.git.commitsAhead path w.base_branch).length,
       match w.git.hasUncommitted path with
       | Except.ok b => b
       | Except.error _ => false)
    else (0, false)
  { name := worker.name
    status := status
    branch := worker.branch
    commits_ahead := commits_dirty.1
    is_dirty := commits_dirty.2 }

/-- The `TaskInfo` built for one live tmux window in the fallback branch
of `list_tasks` (spawn.rs:156-180), `none` when the window has no
existing worktree directory (`continue`). -/
def taskInfoOfWindow (w : World) (window_name : String) : Option TaskInfo :=
  let path := joinPath w.worktreesDir window_name
  if !w.git.pathExists path then none
  else
    some
      { name := window_name
        status := get_worker_status w.tmux (get_session_name w) window_name
        branch :=
          match w.git.worktreeBranch path with
          | Except.ok b => b
          | Except.error _ => ""
        commits_ahead := (w.git.commitsAhead path w.base_branch).length
        is_dirty :=
          match w.git.hasUncommitted path with
          | Except.ok b => b
          | Except.error _ => false }

/-- `list_tasks` (spawn.rs:120): load the state file; when present,
report one `TaskInfo` per persisted worker; when absent, fall back to the
live tmux windows matched against existing worktree directories.  The
operation performs no `save` — the world comes back untouched. -/
def list_tasks (w : World) : List TaskInfo × World :=
  match w.stateFile with
  | some st => (st.workers.map (taskInfoOf w), w)
  | none =>
      let windows := w.tmux.list_windows (get_session_name w)
      (windows.filterMap (taskInfoOfWindow w), w)

/-- `spawn::kill` (spawn.rs:219): kill the tmux window, then — when the
state file exists and holds a worker with the given name — assign
`WorkerStatus::Archived` to its `status` field directly (not through
`set_status`: no clock is read and `updated_at` is untouched) and save. -/
def killOp (w : World) (name : String) : World :=
  let session_name := get_session_name w
  let w1 := { w with tmux := w.tmux.kill_window session_name name }
  match w1.stateFile with
  | some st =>
      if (st.get_worker_by_name name).isSome then
        { w1 with stateFile := some (killStateUpdate st name) }
      else w1
  | none => w1

/-- `spawn::kill_window` (spawn.rs:238): the tmux effect only. -/
def killWindowOp (w : World) (name : String) : World :=
  { w with tmux := w.tmux.kill_window (get_session_name w) name }

/-- `spawn::unregister` (spawn.rs:245): when the state file exists and
holds a worker with the given name, `set_status(Archived)` it (refreshing
`updated_at` with the current instant) and save. -/
def unregisterOp (w : World) (now : Nat) (name : String) : World :=
  match w.stateFile with
  | some st =>
      if (st.get_worker_by_name name).isSome then
        { w with stateFile := some (unregisterStateUpdate st now name) }
      else w
  | none => w

/-- The merge command, crates/wt-cli/src/commands/merge.rs (`run`):
verify the worktree exists and is clean, resolve its branch, run the git
merge; only if the merge succeeded, unregister the worker (archiving its
record) and kill its tmux window.  Any failure before that point returns
the error with the world untouched. -/
def mergeRun (w : World) (now : Nat) (name : String) :
    Except Error Unit × World :=
  let path := joinPath w.worktreesDir name
  if !w.git.pathExists path then
    (Except.error (Error.worktreeNotFound name), w)
  else
    match w.git.hasUncommitted path with
    | Except.error e => (Except.error (Error.git e), w)
    | Except.ok true => (Except.error Error.uncommittedChanges, w)
    | Except.ok false =>
        match w.git.worktreeBranch path with
        | Except.error e => (Except.error (Error.git e), w)
        | Except.ok branch =>
            match w.git.mergeStderr branch with
            | some stderr => (Except.error (Error.git stderr), w)
            | none =>
                let w1 := unregisterOp w now name
                let w2 := killWindowOp w1 name
                (Except.ok (), w2)

/-! ### Shared concrete sample data -/

/-- A freshly spawned worker named `alpha` (id 0, created at instant 0). -/
def sampleWorker : Worker :=
  Worker.new 0 0 "alpha" ".worktrees/alpha" "alpha" "main" "wt-repo"

/-- A state holding just `sampleWorker`. -/
def sampleState : OrchestratorState :=
  { version := 1
    repo_root := "/home/u/repo"
    workers := [(0, sampleWorker)]
    tmux_session := "wt-repo"
    config := {} }

/-- The first registration of the name `foo` (fresh id 0, instant 5). -/
def regStateA : OrchestratorState :=
  registerUpdate (OrchestratorState.new "/home/u/repo" "repo" {}) 0 5 "foo"
    "foo" none ".worktrees/foo" "main" "wt-repo"

/-- A second registration of the same name `foo` (fresh id 1, instant 6)
while the first worker is still active. -/
def regStateB : OrchestratorState :=
  registerUpdate regStateA 1 6 "foo" "foo" none ".worktrees/foo" "main"
    "wt-repo"

/-- A world whose state file holds `sampleWorker` while the live tmux
session has no window for it (killed out-of-band). -/
def sampleWorldNoWindow : World :=
  { repoBasename := "repo"
    worktreesDir := ".worktrees"
    base_branch := "main"
    stateFile := some sampleState
    tmux := { sessions := ["wt-repo"], windows := fun _ => [],
              paneCmd := fun _ _ => none }
    git := { pathExists := fun _ => false, commitsAhead := fun _ _ => [],
             hasUncommitted := fun _ => Except.ok false,
             worktreeBranch := fun _ => Except.ok "",
             mergeStderr := fun _ => none } }

/-- A world where the worktree `alpha` exists and is clean but merging
its branch conflicts. -/
def sampleWorldConflict : World :=
  { repoBasename := "repo"
    worktreesDir := ".worktrees"
    base_branch := "main"
    stateFile := some sampleState
    tmux := { sessions := ["wt-repo"], windows := fun _ => ["alpha"],
              paneCmd := fun _ _ => none }
    git := { pathExists := fun _ => true, commitsAhead := fun _ _ => [],
             hasUncommitted := fun _ => Except.ok false,
             worktreeBranch := fun _ => Except.ok "alpha",
             mergeStderr := fun _ => some "CONFLICT (content)" } }

/-- The worktrees directory holding the single nested worktree
`feature/x/y`, all clean. -/
def gwNested : GitWorld :=
  { tree := DirTree.node false
      [("feature", DirTree.node false
        [("x", DirTree.node false [("y", DirTree.node true [])])])]
    dirty := fun _ => false }

/-- The worktrees directory holding `feature/x/y` and its sibling
`feature/z`, all clean. -/
def gwSibling : GitWorld :=
  { tree := DirTree.node false
      [("feature", DirTree.node false
        [("x", DirTree.node false [("y", DirTree.node true [])]),
         ("z", DirTree.node true [])])]
    dirty := fun _ => false }

/-- A worktrees directory holding the single worktree `wt1`, which has
uncommitted changes. -/
def gwDirty : GitWorld :=
  { tree := DirTree.node false [("wt1", DirTree.node true [])]
    dirty := fun _ => true }

/-! ### Helper lemmas on the record store -/

theorem forall2_self {R : Worker → Worker → Prop} (h : ∀ w, R w w) :
    ∀ l : List (Nat × Worker), List.Forall₂ (fun p q => R p.2 q.2) l l
  | [] => List.Forall₂.nil
  | p :: rest => List.Forall₂.cons (h p.2) (forall2_self h rest)

theorem update_go_forall2 (R : Worker → Worker → Prop) (name : String)
    (f : Worker → Worker) (hf : ∀ w, R w (f w)) (hrefl : ∀ w, R w w) :
    ∀ l : List (Nat × Worker),
      List.Forall₂ (fun p q => R p.2 q.2) l
        (OrchestratorState.update_worker_by_name.go name f l) := by
  intro l
  induction l with
  | nil =>
      simp only [OrchestratorState.update_worker_by_name.go]
      exact List.Forall₂.nil
  | cons hd tl ih =>
      obtain ⟨i, w⟩ := hd
      simp only [OrchestratorState.update_worker_by_name.go]
      by_cases h : w.name = name
      · rw [if_pos h]
        exact List.Forall₂.cons (hf w) (forall2_self hrefl tl)
      · rw [if_neg h]
        exact List.Forall₂.cons (hrefl w) ih

theorem update_go_length (name : String) (f : Worker → Worker) :
    ∀ l : List (Nat × Worker),
      (OrchestratorState.update_worker_by_name.go name f l).length = l.length := by
  intro l
  induction l with
  | nil => simp [OrchestratorState.update_worker_by_name.go]
  | cons hd tl ih =>
      obtain ⟨i, w⟩ := hd
      simp only [OrchestratorState.update_worker_by_name.go]
      by_cases h : w.name = name
      · rw [if_pos h]
        simp
      · rw [if_neg h]
        simp [ih]

theorem insertAssoc_fresh (k : Nat) (v : Worker) :
    ∀ l : List (Nat × Worker), (∀ p ∈ l, p.1 ≠ k) →
      insertAssoc k v l = l ++ [(k, v)]
  | [], _ => rfl
  | (k', v') :: rest, h => by
      simp only [insertAssoc]
      rw [if_neg (h (k', v') (by simp))]
      rw [insertAssoc_fresh k v rest (fun p hp => h p (by simp [hp]))]
      simp

/-! ### Claim C1 -/

/-- C1, as stated, is false at a concrete input: `set_status` is an
unguarded overwrite, so applying it with the non-terminal status
`Running` to a worker whose status is the terminal `Merged` yields a
non-terminal worker. -/
theorem C1_counterexample :
    ({ sampleWorker with status := WorkerStatus.merged } : Worker).is_terminal
      = true
    ∧ (({ sampleWorker with status := WorkerStatus.merged } : Worker).set_status
        1 WorkerStatus.running).is_terminal = false := by
  decide

/-- C1 (amended): `is_terminal` holds exactly for the statuses Merged,
Failed and Archived; the kill and unregister archival operations map every
worker that was terminal to a worker that is still terminal (they only
ever write the terminal status Archived); `set_status`, however, is an
unguarded overwrite — the status afterwards is exactly its argument, so it
keeps a terminal worker terminal precisely when the new status is itself
terminal. -/
theorem C1_terminal_states (w : Worker) (now : Nat) (st : WorkerStatus)
    (s : OrchestratorState) (name : String) :
    (w.is_terminal = true ↔
      w.status = WorkerStatus.merged ∨
      (∃ r, w.status = WorkerStatus.failed r) ∨
      w.status = WorkerStatus.archived)
    ∧ (w.set_status now st).status = st
    ∧ ((w.set_status now st).is_terminal = true ↔
        st = WorkerStatus.merged ∨ (∃ r, st = WorkerStatus.failed r) ∨
        st = WorkerStatus.archived)
    ∧ List.Forall₂
        (fun p q : Nat × Worker =>
          p.2.is_terminal = true → q.2.is_terminal = true)
        s.workers (killStateUpdate s name).workers
    ∧ List.Forall₂
        (fun p q : Nat × Worker =>
          p.2.is_terminal = true → q.2.is_terminal = true)
        s.workers (unregisterStateUpdate s now name).workers := by
  refine ⟨?_, rfl, ?_, ?_, ?_⟩
  · cases h : w.status <;> simp [Worker.is_terminal, h]
  · cases st <;> simp [Worker.is_terminal, Worker.set_status]
  · simp only [killStateUpdate, OrchestratorState.update_worker_by_name]
    exact update_go_forall2
      (fun a b => a.is_terminal = true → b.is_terminal = true) name
      (fun w₀ => { w₀ with status := WorkerStatus.archived })
      (fun _ _ => rfl) (fun _ h => h) s.workers
  · simp only [unregisterStateUpdate, OrchestratorState.update_worker_by_name]
    exact update_go_forall2
      (fun a b => a.is_terminal = true → b.is_terminal = true) name
      (fun w₀ => w₀.set_status now WorkerStatus.archived)
      (fun _ _ => rfl) (fun _ h => h) s.workers

/-- Witness for C1_terminal_states at concrete inputs. -/
theorem C1_terminal_states_witness :
    (sampleWorker.is_terminal = true ↔
      sampleWorker.status = WorkerStatus.merged ∨
      (∃ r, sampleWorker.status = WorkerStatus.failed r) ∨
      sampleWorker.status = WorkerStatus.archived)
    ∧ (sampleWorker.set_status 1 WorkerStatus.running).status
        = WorkerStatus.running
    ∧ ((sampleWorker.set_status 1 WorkerStatus.running).is_terminal = true ↔
        WorkerStatus.running = WorkerStatus.merged ∨
        (∃ r, WorkerStatus.running = WorkerStatus.failed r) ∨
        WorkerStatus.running = WorkerStatus.archived)
    ∧ List.Forall₂
        (fun p q : Nat × Worker =>
          p.2.is_terminal = true → q.2.is_terminal = true)
        sampleState.workers (killStateUpdate sampleState "alpha").workers
    ∧ List.Forall₂
        (fun p q : Nat × Worker =>
          p.2.is_terminal = true → q.2.is_terminal = true)
        sampleState.workers
        (unregisterStateUpdate sampleState 1 "alpha").workers :=
  C1_terminal_states sampleWorker 1 WorkerStatus.running sampleState "alpha"

/-! ### Claim C5 -/

/-- C5, as stated, is false: registering performs no name-uniqueness
check, so the store state obtained by registering the name `foo` twice is
reachable and holds two active workers named `foo`. -/
theorem C5_counterexample :
    Reachable regStateB
    ∧ (regStateB.active_workers.filter (fun w => w.name == "foo")).length
        = 2 := by
  constructor
  · exact Reachable.register _ _ _ _ _ _ _ _ _
      (Reachable.register _ _ _ _ _ _ _ _ _
        (Reachable.init "/home/u/repo" "repo" {}) (by decide))
      (by decide)
  · decide

/-- C5 (amended): the record store never removes workers and never checks
names.  Registering appends a new active worker under its fresh id while
retaining every existing worker unchanged — so a terminal worker's name
is indeed reusable and terminal workers stay in the map (kill/unregister
preserve the worker count) — but nothing prevents a second active worker
from taking a name an active worker already holds. -/
theorem C5_register_no_name_check (s : OrchestratorState)
    (freshId now : Nat) (name branch : String) (context : Option String)
    (wtPath base sess : String)
    (hfresh : ∀ p ∈ s.workers, p.1 ≠ freshId) :
    ((registerUpdate s freshId now name branch context wtPath base
        sess).workers
      = s.workers
        ++ [(freshId,
             registeredWorker freshId now name branch context wtPath base
               sess)]
      ∧ (registeredWorker freshId now name branch context wtPath base
          sess).name = name
      ∧ (registeredWorker freshId now name branch context wtPath base
          sess).is_active = true)
    ∧ (∀ n, (killStateUpdate s n).workers.length = s.workers.length)
    ∧ (∀ now2 n,
        (unregisterStateUpdate s now2 n).workers.length
          = s.workers.length) := by
  refine ⟨⟨?_, ?_, ?_⟩, ?_, ?_⟩
  · have hid : (registeredWorker freshId now name branch context wtPath base
        sess).id = freshId := by
      cases context <;> rfl
    simp only [registerUpdate, OrchestratorState.add_worker, hid]
    exact insertAssoc_fresh _ _ _ hfresh
  · cases context <;> rfl
  · cases context <;> rfl
  · intro n
    exact update_go_length _ _ s.workers
  · intro now2 n
    exact update_go_length _ _ s.workers

/-- Witness for C5_register_no_name_check at a concrete state. -/
theorem C5_register_no_name_check_witness :
    ((registerUpdate sampleState 1 7 "beta" "beta" none ".worktrees/beta"
        "main" "wt-repo").workers
      = sampleState.workers
        ++ [(1, registeredWorker 1 7 "beta" "beta" none ".worktrees/beta"
              "main" "wt-repo")]
      ∧ (registeredWorker 1 7 "beta" "beta" none ".worktrees/beta" "main"
          "wt-repo").name = "beta"
      ∧ (registeredWorker 1 7 "beta" "beta" none ".worktrees/beta" "main"
          "wt-repo").is_active = true)
    ∧ (∀ n, (killStateUpdate sampleState n).workers.length
        = sampleState.workers.length)
    ∧ (∀ now2 n,
        (unregisterStateUpdate sampleState now2 n).workers.length
          = sampleState.workers.length) :=
  C5_register_no_name_check sampleState 1 7 "beta" "beta" none
    ".worktrees/beta" "main" "wt-repo" (by decide)

/-! ### Claim C6 -/

/-- C6 is contradicted by the code of `kill`: the kill archival assigns
the status field directly and leaves `updated_at` exactly as it was
(first conjunct, for every state and name), concretely turning
`sampleWorker` (updated_at 0) into an Archived worker still carrying
updated_at 0 — whereas the unregister archival of the very same worker
goes through `set_status` and does refresh `updated_at` to the mutation
instant. -/
theorem C6_kill_skips_updated_at (s : OrchestratorState) (name : String) :
    List.Forall₂
      (fun p q : Nat × Worker => q.2.updated_at = p.2.updated_at)
      s.workers (killStateUpdate s name).workers
    ∧ (killStateUpdate sampleState "alpha").workers =
        [(0, { sampleWorker with status := WorkerStatus.archived })]
    ∧ ∀ now,
        (unregisterStateUpdate sampleState now "alpha").workers =
          [(0, { sampleWorker with
                  status := WorkerStatus.archived
                  updated_at := now })] := by
  refine ⟨?_, by decide, fun now => rfl⟩
  simp only [killStateUpdate, OrchestratorState.update_worker_by_name]
  exact update_go_forall2 (fun w₀ w' => w'.updated_at = w₀.updated_at) name
    (fun w₀ => { w₀ with status := WorkerStatus.archived })
    (fun _ => rfl) (fun _ => rfl) s.workers

/-- Witness for C6_kill_skips_updated_at at the sample state. -/
theorem C6_kill_skips_updated_at_witness :
    List.Forall₂
      (fun p q : Nat × Worker => q.2.updated_at = p.2.updated_at)
      sampleState.workers (killStateUpdate sampleState "alpha").workers
    ∧ (killStateUpdate sampleState "alpha").workers =
        [(0, { sampleWorker with status := WorkerStatus.archived })]
    ∧ ∀ now,
        (unregisterStateUpdate sampleState now "alpha").workers =
          [(0, { sampleWorker with
                  status := WorkerStatus.archived
                  updated_at := now })] :=
  C6_kill_skips_updated_at sampleState "alpha"

/-! ### Claim C2 -/

/-- C2: start-point resolution is the ordered five-step fallback chain,
first verified candidate wins — (1) `base` as-is, (2) `origin/base` when
the prefix is absent, (3) `refs/heads/base` resolved to a commit id,
(4) `refs/remotes/origin/base` resolved to a commit id, (5) the current
`HEAD` commit id — and `BranchNotFound` is returned only when all five
fail; in particular, when nothing but `HEAD` is resolvable, resolution
still succeeds with `HEAD`'s commit id. -/
theorem C2_start_point_chain (env : RefEnv) (base : String) :
    ((env.revParseVerify base).isSome = true →
      find_valid_start_point env base = Except.ok base)
    ∧ (env.revParseVerify base = none →
       base.startsWith "origin/" = false →
       (env.revParseVerify ("origin/" ++ base)).isSome = true →
       find_valid_start_point env base = Except.ok ("origin/" ++ base))
    ∧ (∀ sha, env.revParseVerify base = none →
       (base.startsWith "origin/" = true ∨
         env.revParseVerify ("origin/" ++ base) = none) →
       env.revParseVerify ("refs/heads/" ++ base) = some sha →
       find_valid_start_point env base = Except.ok sha)
    ∧ (∀ sha, env.revParseVerify base = none →
       (base.startsWith "origin/" = true ∨
         env.revParseVerify ("origin/" ++ base) = none) →
       env.revParseVerify ("refs/heads/" ++ base) = none →
       env.revParseVerify
         (if base.startsWith "origin/" then "refs/remotes/" ++ base
          else "refs/remotes/origin/" ++ base) = some sha →
       find_valid_start_point env base = Except.ok sha)
    ∧ (∀ sha, env.revParseVerify base = none →
       (base.startsWith "origin/" = true ∨
         env.revParseVerify ("origin/" ++ base) = none) →
       env.revParseVerify ("refs/heads/" ++ base) = none →
       env.revParseVerify
         (if base.startsWith "origin/" then "refs/remotes/" ++ base
          else "refs/remotes/origin/" ++ base) = none →
       env.revParseHead = some sha →
       find_valid_start_point env base = Except.ok sha)
    ∧ (env.revParseVerify base = none →
       (base.startsWith "origin/" = true ∨
         env.revParseVerify ("origin/" ++ base) = none) →
       env.revParseVerify ("refs/heads/" ++ base) = none →
       env.revParseVerify
         (if base.startsWith "origin/" then "refs/remotes/" ++ base
          else "refs/remotes/origin/" ++ base) = none →
       env.revParseHead = none →
       find_valid_start_point env base
         = Except.error (Error.branchNotFound base))
    ∧ (∀ sha, (∀ r, env.revParseVerify r = none) →
       env.revParseHead = some sha →
       find_valid_start_point env base = Except.ok sha) := by
  refine ⟨?_, ?_, ?_, ?_, ?_, ?_, ?_⟩
  · intro h1
    simp [find_valid_start_point, h1]
  · intro h1 h2 h3
    simp [find_valid_start_point, h1, h2, h3]
  · intro sha h1 h2 h3
    rcases h2 with h2 | h2 <;>
      simp [find_valid_start_point, h1, h2, h3]
  · intro sha h1 h2 h3 h4
    rcases h2 with h2 | h2 <;>
      simp_all [find_valid_start_point]
  · intro sha h1 h2 h3 h4 h5
    rcases h2 with h2 | h2 <;>
      simp_all [find_valid_start_point]
  · intro h1 h2 h3 h4 h5
    rcases h2 with h2 | h2 <;>
      simp_all [find_valid_start_point]
  · intro sha hall hhead
    simp [find_valid_start_point, hall, hhead]

/-- Witness for C2_start_point_chain: in a repository where only `HEAD`
resolves, a nonexistent base still succeeds with `HEAD`'s commit id. -/
theorem C2_start_point_chain_witness :
    find_valid_start_point
      { revParseVerify := fun _ => none, revParseHead := some "abc123" }
      "nonexistent" = Except.ok "abc123" :=
  (C2_start_point_chain
      { revParseVerify := fun _ => none, revParseHead := some "abc123" }
      "nonexistent").2.2.2.2.2.2 "abc123" (fun _ => rfl) rfl

/-! ### Claim C3 -/

/-- C3: the reconciled display status is a pure four-way case split over
the live tmux probes: absent session ⇒ no-session; session present but
window absent ⇒ no-window; window present with a pane command other than
the known shells bash/zsh/fish/sh ⇒ running; otherwise (a known shell, or
a failed pane probe) ⇒ exited. -/
theorem C3_display_status (env : TmuxEnv) (session window : String) :
    (env.session_exists session = false →
      get_worker_status env session window = TaskStatus.noSession)
    ∧ (env.session_exists session = true →
       env.window_exists session window = false →
       get_worker_status env session window = TaskStatus.noWindow)
    ∧ (∀ cmd, env.session_exists session = true →
       env.window_exists session window = true →
       env.paneCmd session window = some cmd →
       TmuxEnv.knownShells.contains cmd = false →
       get_worker_status env session window = TaskStatus.running)
    ∧ (∀ cmd, env.session_exists session = true →
       env.window_exists session window = true →
       env.paneCmd session window = some cmd →
       TmuxEnv.knownShells.contains cmd = true →
       get_worker_status env session window = TaskStatus.exited)
    ∧ (env.session_exists session = true →
       env.window_exists session window = true →
       env.paneCmd session window = none →
       get_worker_status env session window = TaskStatus.exited) := by
  refine ⟨?_, ?_, ?_, ?_, ?_⟩ <;> intros <;>
    simp_all [get_worker_status, TmuxEnv.pane_is_running]

/-- Witness for C3_display_status: a pane running `claude` reports
`running`. -/
theorem C3_display_status_witness :
    get_worker_status
      { sessions := ["wt-repo"], windows := fun _ => ["alpha"],
        paneCmd := fun _ _ => some "claude" }
      "wt-repo" "alpha" = TaskStatus.running :=
  (C3_display_status
      { sessions := ["wt-repo"], windows := fun _ => ["alpha"],
        paneCmd := fun _ _ => some "claude" }
      "wt-repo" "alpha").2.2.1 "claude" rfl rfl rfl rfl

/-! ### Claim C7 -/

/-- C7: each tab-separated numstat line parses into (insertions,
deletions, path); a line whose number fields are non-numeric (a binary
file) adds one to the file count, zero to both totals, and is not an
error; and the two lines `3\t1\tfoo.txt`, `-\t-\tbin.dat` yield
files_changed 2, insertions 3, deletions 1. -/
theorem C7_numstat_parsing :
    (∀ (stats : DiffStats) (line a b p : String) (rest : List String),
      splitTabs line = a :: b :: p :: rest →
      parseUsize a = none → parseUsize b = none →
      parseNumstatLine stats line =
        { stats with
          files_changed := stats.files_changed + 1
          files := stats.files
            ++ [{ path := p, insertions := 0, deletions := 0 }] })
    ∧ get_diff_stats_lines ["3\t1\tfoo.txt", "-\t-\tbin.dat"] =
        { files_changed := 2, insertions := 3, deletions := 1,
          files := [{ path := "foo.txt", insertions := 3, deletions := 1 },
                    { path := "bin.dat", insertions := 0,
                      deletions := 0 }] } := by
  constructor
  · intro stats line a b p rest hsplit ha hb
    simp [parseNumstatLine, hsplit, ha, hb]
  · decide

/-- Witness for C7_numstat_parsing: the binary-file line `-\t-\tbin.dat`
contributes one file and zero counts. -/
theorem C7_numstat_parsing_witness :
    parseNumstatLine {} "-\t-\tbin.dat" =
      { files_changed := 1
        files := [{ path := "bin.dat", insertions := 0, deletions := 0 }] } :=
  C7_numstat_parsing.1 {} "-\t-\tbin.dat" "-" "-" "bin.dat" [] (by decide)
    (by decide) (by decide)

/-! ### Claim C9 -/

/-- C9: the status/ps reconciliation query is read-only — it hands the
world back untouched (in particular the persisted state file is exactly
what it was), its report is one entry per persisted worker, and a worker
whose window was killed out-of-band is reported with live status
no-window while its persisted record is unchanged. -/
theorem C9_query_read_only (w : World) :
    (list_tasks w).2 = w
    ∧ (∀ st, w.stateFile = some st →
        (list_tasks w).1 = st.workers.map (taskInfoOf w))
    ∧ (∀ st (p : Nat × Worker), w.stateFile = some st → p ∈ st.workers →
        w.tmux.session_exists (get_session_name w) = true →
        w.tmux.window_exists (get_session_name w) p.2.name = false →
        (taskInfoOf w p).status = TaskStatus.noWindow
        ∧ (list_tasks w).2.stateFile = some st) := by
  refine ⟨?_, ?_, ?_⟩
  · cases h : w.stateFile <;> simp [list_tasks, h]
  · intro st h
    simp [list_tasks, h]
  · intro st p h hmem hsess hwin
    constructor
    · simp [taskInfoOf, get_worker_status, hsess, hwin]
    · cases h2 : w.stateFile <;> simp_all [list_tasks]

/-- Witness for C9_query_read_only: the out-of-band-killed worker is
reported no-window and the persisted file is untouched. -/
theorem C9_query_read_only_witness :
    (taskInfoOf sampleWorldNoWindow (0, sampleWorker)).status
      = TaskStatus.noWindow
    ∧ (list_tasks sampleWorldNoWindow).2.stateFile = some sampleState :=
  (C9_query_read_only sampleWorldNoWindow).2.2 sampleState (0, sampleWorker)
    rfl (by decide) rfl rfl

/-! ### Helper lemmas on the directory tree -/

theorem find?_key_map (n : String) (f : String × DirTree → String × DirTree)
    (hf : ∀ c, (f c).1 = c.1) :
    ∀ cs : List (String × DirTree),
      List.find? (fun c => c.1 == n) (cs.map f)
        = Option.map f (List.find? (fun c => c.1 == n) cs) := by
  intro cs
  induction cs with
  | nil => rfl
  | cons c rest ih =>
      simp only [List.map_cons, List.find?_cons, hf c]
      cases h : (c.1 == n) <;> simp [h, ih]

theorem find?_key_filter_self (n : String) :
    ∀ cs : List (String × DirTree),
      List.find? (fun c => c.1 == n) (cs.filter (fun c => c.1 != n))
        = none := by
  intro cs
  induction cs with
  | nil => rfl
  | cons c rest ih =>
      by_cases h : c.1 = n
      · simp [List.filter_cons, h, ih]
      · simp [List.filter_cons, h, ih, List.find?_cons]

theorem find?_key_filter_other (m n : String) (hmn : m ≠ n) :
    ∀ cs : List (String × DirTree),
      List.find? (fun c => c.1 == m) (cs.filter (fun c => c.1 != n))
        = List.find? (fun c => c.1 == m) cs := by
  intro cs
  induction cs with
  | nil => rfl
  | cons c rest ih =>
      by_cases h : c.1 = n
      · have hnm : (n == m) = false := beq_eq_false_iff_ne.mpr (Ne.symm hmn)
        simp [List.filter_cons, h, List.find?_cons, hnm, ih]
      · cases hcm : (c.1 == m) <;>
          simp [List.filter_cons, h, List.find?_cons, hcm, ih]

theorem getAt_cons_g_irrel (g g' : Bool) (cs : List (String × DirTree))
    (m : String) (r : List String) :
    DirTree.getAt (DirTree.node g cs) (m :: r)
      = DirTree.getAt (DirTree.node g' cs) (m :: r) := rfl

theorem getAt_append_isSome :
    ∀ (p s : List String) (t : DirTree),
      (t.getAt (p ++ s)).isSome = true → (t.getAt p).isSome = true := by
  intro p
  induction p with
  | nil =>
      intro s t h
      simp [DirTree.getAt]
  | cons n p' ih =>
      intro s t h
      cases t with
      | node g cs =>
          simp only [List.cons_append] at h
          cases hf : cs.find? (fun c => c.1 == n) with
          | none => simp [DirTree.getAt, hf] at h
          | some c =>
              simp only [DirTree.getAt, hf] at h ⊢
              exact ih s c.2 h

theorem getAt_removeAt_deeper :
    ∀ (p s : List String) (t : DirTree), s ≠ [] →
      (t.getAt p).isSome = true →
      ((t.removeAt (p ++ s)).getAt p).isSome = true := by
  intro p
  induction p with
  | nil =>
      intro s t _ _
      simp [DirTree.getAt]
  | cons n p' ih =>
      intro s t hs h
      cases t with
      | node g cs =>
          cases hps : p' ++ s with
          | nil => exact absurd (List.append_eq_nil.mp hps).2 hs
          | cons a l =>
              simp only [List.cons_append, hps, DirTree.removeAt]
              simp only [DirTree.getAt] at h
              cases hf : cs.find? (fun c => c.1 == n) with
              | none => rw [hf] at h; simp at h
              | some c =>
                  rw [hf] at h
                  have hkey : (c.1 == n) = true := by
                    have := List.find?_some hf
                    simpa using this
                  simp only [DirTree.getAt]
                  rw [find?_key_map n
                    (fun c => if c.1 == n then (c.1, c.2.removeAt (a :: l))
                      else c)
                    (fun c => by by_cases hc : (c.1 == n) = true <;>
                      simp [hc]) cs]
                  rw [hf]
                  simp only [Option.map_some']
                  rw [if_pos hkey]
                  rw [← hps]
                  exact ih s c.2 hs h

theorem getAt_removeAt_self :
    ∀ (p : List String) (t : DirTree), p ≠ [] →
      (t.removeAt p).getAt p = none := by
  intro p
  induction p with
  | nil => intro t h; exact absurd rfl h
  | cons n p' ih =>
      intro t _
      cases t with
      | node g cs =>
          cases p' with
          | nil =>
              simp only [DirTree.removeAt, DirTree.getAt,
                find?_key_filter_self]
          | cons a l =>
              simp only [DirTree.removeAt, DirTree.getAt]
              rw [find?_key_map n
                (fun c => if c.1 == n then (c.1, c.2.removeAt (a :: l))
                  else c)
                (fun c => by by_cases hc : (c.1 == n) = true <;>
                  simp [hc]) cs]
              cases hf : cs.find? (fun c => c.1 == n) with
              | none => simp
              | some c =>
                  have hkey : (c.1 == n) = true := by
                    have := List.find?_some hf
                    simpa using this
                  simp only [Option.map_some']
                  rw [if_pos hkey]
                  exact ih c.2 (by simp)

theorem getAt_removeAt_none :
    ∀ (q p : List String) (t : DirTree),
      t.getAt p = none → (t.removeAt q).getAt p = none := by
  intro q
  induction q with
  | nil =>
      intro p t h
      cases t with
      | node g cs => exact h
  | cons n q' ih =>
      intro p t h
      cases t with
      | node g cs =>
          cases p with
          | nil => simp [DirTree.getAt] at h
          | cons m p' =>
              simp only [DirTree.getAt] at h
              cases q' with
              | nil =>
                  by_cases hmn : m = n
                  · subst hmn
                    simp only [DirTree.removeAt, DirTree.getAt,
                      find?_key_filter_self]
                  · simp only [DirTree.removeAt, DirTree.getAt,
                      find?_key_filter_other m n hmn]
                    exact h
              | cons a l =>
                  simp only [DirTree.removeAt, DirTree.getAt]
                  rw [find?_key_map m
                    (fun c => if c.1 == n then (c.1, c.2.removeAt (a :: l))
                      else c)
                    (fun c => by by_cases hc : (c.1 == n) = true <;>
                      simp [hc]) cs]
                  cases hf : cs.find? (fun c => c.1 == m) with
                  | none => simp
                  | some c =>
                      rw [hf] at h
                      simp only [Option.map_some']
                      by_cases hc : (c.1 == n) = true
                      · rw [if_pos hc]
                        exact ih p' c.2 h
                      · rw [if_neg (by simpa using hc)]
                        exact h

theorem nodupChildren_cons (m : String) (t : DirTree)
    (rest : List (String × DirTree)) :
    DirTree.nodupChildren ((m, t) :: rest)
      = ((rest.all fun c => c.1 != m) && DirTree.nodupTree t
          && DirTree.nodupChildren rest) := by
  cases t with
  | node g cs => simp [DirTree.nodupChildren, DirTree.nodupTree]

theorem nodupChildren_filter (pr : String × DirTree → Bool) :
    ∀ cs, DirTree.nodupChildren cs = true →
      DirTree.nodupChildren (cs.filter pr) = true := by
  intro cs
  induction cs with
  | nil => intro h; exact h
  | cons c rest ih =>
      intro h
      obtain ⟨m, t⟩ := c
      rw [nodupChildren_cons] at h
      simp only [Bool.and_eq_true] at h
      obtain ⟨⟨hall, hnt⟩, hrest⟩ := h
      by_cases hp : pr (m, t) = true
      · rw [List.filter_cons_of_pos hp, nodupChildren_cons]
        simp only [Bool.and_eq_true]
        refine ⟨⟨?_, hnt⟩, ih hrest⟩
        rw [List.all_eq_true] at hall ⊢
        intro c hc
        exact hall c (List.mem_of_mem_filter hc)
      · rw [List.filter_cons_of_neg (by simpa using hp)]
        exact ih hrest

theorem nodupTree_removeAt :
    ∀ (p : List String) (t : DirTree),
      DirTree.nodupTree t = true → DirTree.nodupTree (t.removeAt p) = true := by
  intro p
  induction p with
  | nil =>
      intro t h
      cases t with
      | node g cs => exact h
  | cons n p' ih =>
      intro t h
      cases t with
      | node g cs =>
          cases p' with
          | nil =>
              simp only [DirTree.removeAt, DirTree.nodupTree]
              exact nodupChildren_filter _ cs h
          | cons a l =>
              simp only [DirTree.removeAt, DirTree.nodupTree]
              simp only [DirTree.nodupTree] at h
              induction cs with
              | nil => simp [DirTree.nodupChildren]
              | cons c ctl cih =>
                  obtain ⟨m, tm⟩ := c
                  rw [nodupChildren_cons] at h
                  simp only [Bool.and_eq_true] at h
                  obtain ⟨⟨hall, hnt⟩, hctl⟩ := h
                  simp only [List.map_cons]
                  have hkeys : ∀ (l' : List (String × DirTree)),
                      (l'.map (fun c =>
                        if c.1 == n then (c.1, c.2.removeAt (a :: l))
                        else c)).all (fun c => c.1 != m)
                        = l'.all (fun c => c.1 != m) := by
                    intro l'
                    induction l' with
                    | nil => rfl
                    | cons d dtl dih =>
                        simp only [List.map_cons, List.all_cons, dih]
                        by_cases hd : (d.1 == n) = true <;> simp [hd]
                  by_cases hm : (m == n) = true
                  · rw [if_pos hm]
                    rw [nodupChildren_cons]
                    simp only [Bool.and_eq_true]
                    exact ⟨⟨by rw [hkeys]; exact hall, ih tm hnt⟩,
                      cih hctl⟩
                  · rw [if_neg (by simpa using hm)]
                    rw [nodupChildren_cons]
                    simp only [Bool.and_eq_true]
                    exact ⟨⟨by rw [hkeys]; exact hall, hnt⟩, cih hctl⟩

theorem key_ne_of_all_bne (n m : String) (rest : List (String × DirTree))
    (hall : (rest.all fun c => c.1 != n) = true)
    (c : String × DirTree)
    (hf : rest.find? (fun c => c.1 == m) = some c) :
    (n == m) = false := by
  have hcm : c.1 = m := by
    have := List.find?_some hf
    simpa using this
  have hcn : c.1 ≠ n := by
    rw [List.all_eq_true] at hall
    have := hall c (List.mem_of_find?_eq_some hf)
    simpa using this
  simp only [beq_eq_false_iff_ne, ne_eq]
  intro he
  exact hcn (by rw [hcm, he])

theorem getAt_lift_of_all_bne (n : String) (t0 : DirTree)
    (rest : List (String × DirTree))
    (hall : (rest.all fun c => c.1 != n) = true)
    (r : List String) (d : DirTree) (hr : r ≠ [])
    (hget : DirTree.getAt (DirTree.node false rest) r = some d) :
    DirTree.getAt (DirTree.node false ((n, t0) :: rest)) r = some d := by
  cases r with
  | nil => exact absurd rfl hr
  | cons m r' =>
      simp only [DirTree.getAt] at hget
      cases hf : rest.find? (fun c => c.1 == m) with
      | none => rw [hf] at hget; simp at hget
      | some c =>
          rw [hf] at hget
          have hmn := key_ne_of_all_bne n m rest hall c hf
          simp only [DirTree.getAt, List.find?_cons, hmn, hf]
          exact hget

theorem mem_wtChildren_getAt :
    ∀ (base : List String) (cs : List (String × DirTree)) (q : List String),
      DirTree.nodupChildren cs = true → q ∈ DirTree.wtChildren base cs →
      ∃ r d, q = base ++ r ∧ r ≠ []
        ∧ DirTree.getAt (DirTree.node false cs) r = some d
        ∧ d.gitFile = true := by
  intro base cs
  induction base, cs using DirTree.wtChildren.induct with
  | case1 base =>
      intro q _ hq
      simp [DirTree.wtChildren] at hq
  | case2 base n children rest ih =>
      intro q hnd hq
      rw [nodupChildren_cons] at hnd
      simp only [Bool.and_eq_true] at hnd
      obtain ⟨⟨hall, _⟩, hrest⟩ := hnd
      rw [show DirTree.wtChildren base
            ((n, DirTree.node true children) :: rest)
          = (base ++ [n]) :: DirTree.wtChildren base rest from by
            simp [DirTree.wtChildren]] at hq
      rcases List.mem_cons.mp hq with hq | hq
      · refine ⟨[n], DirTree.node true children, hq, by simp, ?_, rfl⟩
        simp [DirTree.getAt]
      · obtain ⟨r, d, hq', hr, hget, hgit⟩ := ih q hrest hq
        exact ⟨r, d, hq', hr,
          getAt_lift_of_all_bne n _ rest hall r d hr hget, hgit⟩
  | case3 base n cs rest ih1 ih2 =>
      intro q hnd hq
      rw [nodupChildren_cons] at hnd
      simp only [Bool.and_eq_true] at hnd
      obtain ⟨⟨hall, hnt⟩, hrest⟩ := hnd
      rw [show DirTree.wtChildren base ((n, DirTree.node false cs) :: rest)
          = DirTree.wtChildren (base ++ [n]) cs
            ++ DirTree.wtChildren base rest from by
            simp [DirTree.wtChildren]] at hq
      rcases List.mem_append.mp hq with hq | hq
      · obtain ⟨r, d, hq', hr, hget, hgit⟩ :=
          ih1 q (by simpa [DirTree.nodupTree] using hnt) hq
        refine ⟨n :: r, d, by simpa [List.append_assoc] using hq',
          by simp, ?_, hgit⟩
        simp only [DirTree.getAt, List.find?_cons]
        have hnn : (n == n) = true := by simp
        simp only [hnn]
        exact hget
      · obtain ⟨r, d, hq', hr, hget, hgit⟩ := ih2 q hrest hq
        exact ⟨r, d, hq', hr,
          getAt_lift_of_all_bne n _ rest hall r d hr hget, hgit⟩

theorem mem_worktreePaths_getAt (t : DirTree) (q : List String)
    (hnd : DirTree.nodupTree t = true) (hq : q ∈ t.worktreePaths) :
    ∃ d, t.getAt q = some d ∧ d.gitFile = true ∧ q ≠ [] := by
  cases t with
  | node g cs =>
      obtain ⟨r, d, hqr, hr, hget, hgit⟩ :=
        mem_wtChildren_getAt [] cs q
          (by simpa [DirTree.nodupTree] using hnd)
          (by simpa [DirTree.worktreePaths, DirTree.children] using hq)
      have hqr' : q = r := by simpa using hqr
      subst hqr'
      cases q with
      | nil => exact absurd rfl hr
      | cons m r' => exact ⟨d, hget, hgit, by simp⟩

theorem nil_not_mem_parentChain : ∀ p : List String, [] ∉ parentChain p := by
  intro p
  induction p using parentChain.induct with
  | case1 => simp [parentChain]
  | case2 n rest q h =>
      simp [parentChain, show (n :: rest).dropLast = [] from h]
  | case3 n rest q hne ih =>
      have hne' : ¬ (n :: rest).dropLast = [] := hne
      rw [show parentChain (n :: rest)
          = (n :: rest).dropLast :: parentChain ((n :: rest).dropLast) from by
            simp only [parentChain, if_neg hne']]
      intro hmem
      rcases List.mem_cons.mp hmem with h | h
      · exact hne' h.symm
      · exact ih h

theorem cleanup_after_remove :
    ∀ (r : List String) (t : DirTree), (t.getAt r).isSome = true →
      ∃ t', cleanupChain (t.removeAt r) (parentChain r) = Except.ok t'
        ∧ (∀ p, (t.removeAt r).getAt p = none → t'.getAt p = none)
        ∧ (DirTree.nodupTree (t.removeAt r) = true →
            DirTree.nodupTree t' = true) := by
  intro r
  induction r using parentChain.induct with
  | case1 =>
      intro t _
      exact ⟨t.removeAt [], by simp [parentChain, cleanupChain],
        fun p h => h, fun h => h⟩
  | case2 n rest q h =>
      intro t _
      refine ⟨t.removeAt (n :: rest), ?_, fun p hp => hp, fun hn => hn⟩
      simp [parentChain, show (n :: rest).dropLast = [] from h,
        cleanupChain]
  | case3 n rest q hne ih =>
      intro t h
      have hne' : ¬ (n :: rest).dropLast = [] := hne
      have hr_ne : (n :: rest) ≠ [] := by simp
      have hsplit : (n :: rest).dropLast ++ [(n :: rest).getLast hr_ne]
          = n :: rest := List.dropLast_append_getLast hr_ne
      have hq_some : (t.getAt ((n :: rest).dropLast)).isSome = true := by
        apply getAt_append_isSome _ [(n :: rest).getLast hr_ne]
        rw [hsplit]
        exact h
      have h2 := getAt_removeAt_deeper ((n :: rest).dropLast)
        [(n :: rest).getLast hr_ne] t (by simp) hq_some
      rw [hsplit] at h2
      obtain ⟨d, hd⟩ := Option.isSome_iff_exists.mp h2
      rw [show parentChain (n :: rest)
          = (n :: rest).dropLast :: parentChain ((n :: rest).dropLast) from by
            simp only [parentChain, if_neg hne']]
      by_cases hempty : (!d.gitFile && d.children.isEmpty) = true
      · obtain ⟨t', hok, hmono, hnd⟩ := ih (t.removeAt (n :: rest)) h2
        refine ⟨t', ?_, ?_, ?_⟩
        · simp only [cleanupChain, hd]
          rw [if_pos hempty]
          exact hok
        · intro p hp
          exact hmono p (getAt_removeAt_none _ p _ hp)
        · intro hn
          exact hnd (nodupTree_removeAt _ _ hn)
      · refine ⟨t.removeAt (n :: rest), ?_, fun p hp => hp, fun hn => hn⟩
        simp only [cleanupChain, hd]
        rw [if_neg hempty]

/-! ### Claim C10 -/

/-- C10: when the worktree exists and is clean but the git merge itself
exits non-zero, the merge command returns the error carrying the captured
stderr and performs no other mutation — the world (persisted record,
tmux windows) comes back exactly as it was; archival and window-kill
happen only after a successful merge. -/
theorem C10_merge_failure_frame (w : World) (now : Nat)
    (name branch stderr : String)
    (hexists : w.git.pathExists (joinPath w.worktreesDir name) = true)
    (hclean : w.git.hasUncommitted (joinPath w.worktreesDir name)
      = Except.ok false)
    (hbranch : w.git.worktreeBranch (joinPath w.worktreesDir name)
      = Except.ok branch)
    (hmerge : w.git.mergeStderr branch = some stderr) :
    mergeRun w now name = (Except.error (Error.git stderr), w) := by
  simp [mergeRun, hexists, hclean, hbranch, hmerge]

/-- Witness for C10_merge_failure_frame at the conflicting world. -/
theorem C10_merge_failure_frame_witness :
    mergeRun sampleWorldConflict 3 "alpha"
      = (Except.error (Error.git "CONFLICT (content)"),
         sampleWorldConflict) :=
  C10_merge_failure_frame sampleWorldConflict 3 "alpha" "alpha"
    "CONFLICT (content)" rfl rfl rfl rfl

/-! ### Claim C4 -/

/-- C4: for a listed worktree with uncommitted changes, remove without
force fails with `UncommittedChanges` — the removal is never attempted,
so the worktree still appears in the listing of the unchanged tree —
while the same remove with force succeeds and the worktree is gone from
the tree and from its listing. -/
theorem C4_remove_uncommitted_guard (w : GitWorld) (p : List String)
    (hnd : DirTree.nodupTree w.tree = true)
    (hp : p ∈ w.tree.worktreePaths)
    (hdirty : w.dirty p = true) :
    (Worktree.remove w p false = Except.error Error.uncommittedChanges
      ∧ String.intercalate "/" p ∈ w.tree.list_worktree_names)
    ∧ ∃ w', Worktree.remove w p true = Except.ok w'
        ∧ w'.tree.getAt p = none
        ∧ p ∉ w'.tree.worktreePaths := by
  obtain ⟨d, hget, hgit, hpne⟩ := mem_worktreePaths_getAt w.tree p hnd hp
  refine ⟨⟨?_, ?_⟩, ?_⟩
  · simp [Worktree.remove, hdirty]
  · rw [DirTree.list_worktree_names, List.mem_mergeSort]
    exact List.mem_map_of_mem _ hp
  · have hremove : git_remove_worktree w p true
        = Except.ok { w with tree := w.tree.removeAt p } := by
      simp [git_remove_worktree, hget, hgit]
    obtain ⟨t', hchain, hmono, hndkeep⟩ :=
      cleanup_after_remove p w.tree (by simp [hget])
    have hnone : t'.getAt p = none :=
      hmono p (getAt_removeAt_self p w.tree hpne)
    refine ⟨{ w with tree := t' }, ?_, hnone, ?_⟩
    · simp only [Worktree.remove]
      rw [if_neg (by simp)]
      rw [hremove]
      simp only [cleanup_empty_parents]
      rw [hchain]
    · intro hmem
      have hnd' : DirTree.nodupTree t' = true :=
        hndkeep (nodupTree_removeAt p w.tree hnd)
      obtain ⟨d', hget', _, _⟩ := mem_worktreePaths_getAt t' p hnd' hmem
      rw [hnone] at hget'
      exact Option.noConfusion hget'

/-- Witness for C4_remove_uncommitted_guard at the dirty worktree
`wt1`. -/
theorem C4_remove_uncommitted_guard_witness :
    (Worktree.remove gwDirty ["wt1"] false
        = Except.error Error.uncommittedChanges
      ∧ String.intercalate "/" ["wt1"] ∈ gwDirty.tree.list_worktree_names)
    ∧ ∃ w', Worktree.remove gwDirty ["wt1"] true = Except.ok w'
        ∧ w'.tree.getAt ["wt1"] = none
        ∧ ["wt1"] ∉ w'.tree.worktreePaths :=
  C4_remove_uncommitted_guard gwDirty ["wt1"]
    (by simp [gwDirty, DirTree.nodupTree, DirTree.nodupChildren])
    (by simp [gwDirty, DirTree.worktreePaths, DirTree.children,
      DirTree.wtChildren])
    rfl

/-! ### Claim C8 -/

/-- C8: after a nested worktree is removed, the ancestor walk removes
each now-empty ancestor and ascends (second conjunct), stops at the first
non-empty ancestor leaving the tree as it is (first conjunct), and never
visits the worktrees root (third conjunct); concretely, removing
`feature/x/y` deletes the empty ancestors `feature/x` and `feature` but
keeps the root, and with a sibling `feature/z` present the ascent stops
after deleting `feature/x`, keeping `feature` alive. -/
theorem C8_cleanup_parents :
    (∀ (t : DirTree) (q : List String) (rest : List (List String))
        (d : DirTree),
      t.getAt q = some d → (!d.gitFile && d.children.isEmpty) = false →
      cleanupChain t (q :: rest) = Except.ok t)
    ∧ (∀ (t : DirTree) (q : List String) (rest : List (List String))
        (d : DirTree),
      t.getAt q = some d → (!d.gitFile && d.children.isEmpty) = true →
      cleanupChain t (q :: rest) = cleanupChain (t.removeAt q) rest)
    ∧ (∀ p : List String, [] ∉ parentChain p)
    ∧ Worktree.remove gwNested ["feature", "x", "y"] false
        = Except.ok { gwNested with tree := DirTree.node false [] }
    ∧ Worktree.remove gwSibling ["feature", "x", "y"] false
        = Except.ok { gwSibling with tree :=
            (DirTree.node false
              [("feature",
                DirTree.node false [("z", DirTree.node true [])])]) } := by
  refine ⟨?_, ?_, nil_not_mem_parentChain, ?_, ?_⟩
  · intro t q rest d hget hne
    simp only [cleanupChain, hget]
    rw [if_neg (by simp [hne])]
  · intro t q rest d hget he
    simp only [cleanupChain, hget]
    rw [if_pos he]
  · simp [Worktree.remove, git_remove_worktree, gwNested,
      cleanup_empty_parents, parentChain, cleanupChain, DirTree.getAt,
      DirTree.removeAt, DirTree.gitFile, DirTree.children]
  · simp [Worktree.remove, git_remove_worktree, gwSibling,
      cleanup_empty_parents, parentChain, cleanupChain, DirTree.getAt,
      DirTree.removeAt, DirTree.gitFile, DirTree.children]

/-- Witness for C8_cleanup_parents: a visited directory that still holds
an entry stops the walk with the tree unchanged. -/
theorem C8_cleanup_parents_witness :
    cleanupChain (DirTree.node false [("a", DirTree.node true [])]) [["a"]]
      = Except.ok (DirTree.node false [("a", DirTree.node true [])]) :=
  C8_cleanup_parents.1 (DirTree.node false [("a", DirTree.node true [])])
    ["a"] [] (DirTree.node true []) rfl rfl

end WT
